import Mathlib

/-!
# Ark ride-hailing core — verification of the order/matching specification

Shallow embedding of the order state machine, the order store's
compare-and-swap updates, the order service commands, and the matching
service's dispatch algorithm, translated from the Go sources
(`internal/modules/order/model.go`, the order service/store files, and the
matching service/store files). Machine integers are modelled as `Nat`/`Int`;
timestamps are modelled as `Int` seconds; SQL/Redis effects are modelled as
pure state transformers.
-/

namespace Ark

/-- Order status enumeration, from `internal/modules/order/model.go`
(`StatusNone` … `StatusExpired`). -/
inductive Status where
  | none
  | scheduled
  | waiting
  | assigned
  | approaching
  | arrived
  | driving
  | payment
  | complete
  | cancelled
  | denied
  | expired
deriving DecidableEq, Repr

/-- `AllowedTransitions` from `model.go`: the Go map literal, keyed by
from-status.  Statuses that are not keys of the map are mapped to `Option.none`
(mirroring the `ok` lookup flag in `CanTransition`). -/
def AllowedTransitions : Status → Option (List Status)
  | .scheduled => some [.assigned, .cancelled]
  | .waiting => some [.waiting, .approaching, .cancelled, .expired]
  | .assigned => some [.approaching, .cancelled, .scheduled]
  | .approaching => some [.arrived, .cancelled, .waiting]
  | .arrived => some [.driving, .cancelled]
  | .driving => some [.payment, .cancelled]
  | .payment => some [.complete]
  | _ => Option.none

/-- `CanTransition` from `model.go`: membership in the transition set built
from `AllowedTransitions` (`buildTransitionSet`), `false` when the from-status
is not a key. -/
def CanTransition (fromSt toSt : Status) : Bool :=
  match AllowedTransitions fromSt with
  | Option.none => false
  | some tos => tos.contains toSt

/-- The canonical transition table of spec §4.1, written down from the words
of the spec (claim C1), independently of `AllowedTransitions`:
scheduled→{assigned, cancelled}, waiting→{waiting, approaching, cancelled,
expired}, assigned→{approaching, cancelled, scheduled},
approaching→{arrived, cancelled, waiting}, arrived→{driving, cancelled},
driving→{payment, cancelled}, payment→{complete}. -/
def specTransitionTable (fromSt toSt : Status) : Bool :=
  match fromSt, toSt with
  | .scheduled, .assigned => true
  | .scheduled, .cancelled => true
  | .waiting, .waiting => true
  | .waiting, .approaching => true
  | .waiting, .cancelled => true
  | .waiting, .expired => true
  | .assigned, .approaching => true
  | .assigned, .cancelled => true
  | .assigned, .scheduled => true
  | .approaching, .arrived => true
  | .approaching, .cancelled => true
  | .approaching, .waiting => true
  | .arrived, .driving => true
  | .arrived, .cancelled => true
  | .driving, .payment => true
  | .driving, .cancelled => true
  | .payment, .complete => true
  | _, _ => false

end Ark

namespace Ark

/-- One `orders` row, restricted to the columns the verified claims are
about: `status`, `status_version`, `driver_id`, `incentive_bonus`
(store file, `UpdateStatus` / `ClaimScheduled` / `ReopenScheduled`). -/
structure Row where
  status : Status
  version : Nat
  driver : Option String
  bonus : Int
deriving DecidableEq, Repr

/-- `Store.UpdateStatus`: the SQL
`UPDATE orders SET status=$1, status_version=status_version+1,
driver_id=COALESCE($2, driver_id) … WHERE id=$3 AND status=$4 AND
status_version=$5` as a compare-and-swap on one row.  Returns the "applied"
boolean (`RowsAffected() == 1`) and the row afterwards. -/
def casUpdateStatus (r : Row) (fromSt toSt : Status) (ver : Nat)
    (d : Option String) : Bool × Row :=
  if r.status = fromSt ∧ r.version = ver then
    (true,
      { status := toSt
        version := r.version + 1
        driver := match d with
          | some v => some v
          | Option.none => r.driver
        bonus := r.bonus })
  else (false, r)

/-- `Store.ClaimScheduled`: the SQL
`UPDATE orders SET status='assigned', driver_id=$1, assigned_at=NOW(),
status_version=status_version+1 WHERE id=$2 AND status='scheduled' AND
status_version=$3` as a compare-and-swap. -/
def casClaimScheduled (r : Row) (driverID : String) (expectVersion : Nat) :
    Bool × Row :=
  if r.status = .scheduled ∧ r.version = expectVersion then
    (true,
      { status := .assigned
        version := r.version + 1
        driver := some driverID
        bonus := r.bonus })
  else (false, r)

/-- `Store.ReopenScheduled`: the SQL
`UPDATE orders SET status='scheduled', driver_id=NULL, assigned_at=NULL,
incentive_bonus=incentive_bonus+$1, status_version=status_version+1
WHERE id=$2 AND status='assigned' AND status_version=$3`. -/
def casReopenScheduled (r : Row) (expectVersion : Nat) (bonus : Int) :
    Bool × Row :=
  if r.status = .assigned ∧ r.version = expectVersion then
    (true,
      { status := .scheduled
        version := r.version + 1
        driver := Option.none
        bonus := r.bonus + bonus })
  else (false, r)

end Ark

namespace Ark

/-- Outcome taxonomy of a service command (spec §7): the subset relevant to
the verified claims.  `ErrBadRequest`, `ErrNotFound`, `ErrInvalidState`,
`ErrConflict` from the order service file; `success` is a nil error. -/
inductive CmdResult where
  | success
  | notFound
  | invalidState
  | conflict
  | badRequest
  | activeOrder
deriving DecidableEq, Repr

/-- One conditional-update attempt against a single order row, with the
store method it came from: `Store.UpdateStatus`, `Store.ClaimScheduled` or
`Store.ReopenScheduled`. -/
inductive CasAttempt where
  | update (fromSt toSt : Status) (ver : Nat) (driver : Option String)
  | claim (driver : String) (ver : Nat)
  | reopen (ver : Nat) (bonus : Int)
deriving DecidableEq, Repr

/-- The `status_version` token an attempt compares against. -/
def CasAttempt.ver' : CasAttempt → Nat
  | .update _ _ v _ => v
  | .claim _ v => v
  | .reopen v _ => v

/-- Execute one attempt against the row (the store serializes the SQL
UPDATEs, so concurrent attempts form a sequence). -/
def applyAttempt (r : Row) : CasAttempt → Bool × Row
  | .update fromSt toSt v d => casUpdateStatus r fromSt toSt v d
  | .claim d v => casClaimScheduled r d v
  | .reopen v b => casReopenScheduled r v b

/-- How many attempts of a serialized sequence report "applied". -/
def appliedCount (r : Row) : List CasAttempt → Nat
  | [] => 0
  | a :: rest =>
    (if (applyAttempt r a).1 then 1 else 0) + appliedCount (applyAttempt r a).2 rest

/-- A fresh instant order as created by `Service.Create`:
status `waiting`, `status_version` 0, no driver. -/
def freshWaitingRow : Row := { status := .waiting, version := 0, driver := Option.none, bonus := 0 }

/-- The row after a driver `d` wins the accept race:
`waiting → approaching`, version 1, `driver_id = d`. -/
def wonRow (d : String) : Row := { status := .approaching, version := 1, driver := some d, bonus := 0 }

/-- One atomic event of a concurrent `Service.Accept` race on a single order:
thread `i` either performs its `store.Get` (reading a snapshot) or issues its
compare-and-swap `store.UpdateStatus` based on that snapshot. -/
inductive AcceptEv (n : Nat) where
  | read (i : Fin n)
  | cas (i : Fin n)

/-- Shared state of the accept race: the order row plus each thread's
snapshot (`Option.none` before its `Get` returned) and final result. -/
structure AcceptConfig (n : Nat) where
  row : Row
  snap : Fin n → Option Row
  res : Fin n → Option CmdResult

/-- Initial configuration: a freshly created order, no thread has read or
finished. -/
def acceptInit (n : Nat) : AcceptConfig n :=
  { row := freshWaitingRow, snap := fun _ => Option.none, res := fun _ => Option.none }

/-- One interleaving step of the accept race, following `Service.Accept`:
a `read` stores the current row as thread `i`'s snapshot; a `cas` checks
`CanTransition(snapshot.Status, approaching)` (`ErrInvalidState` if absent),
then issues `store.UpdateStatus(id, snapshot.Status, approaching,
snapshot.StatusVersion, &driverID)` and reports `ErrConflict` when it did not
apply.  A `cas` by a thread that has not read, or that already finished, is
a no-op (such traces do not arise from the Go code). -/
def acceptStep {n : Nat} (drivers : Fin n → String) (c : AcceptConfig n) :
    AcceptEv n → AcceptConfig n
  | .read i => { c with snap := Function.update c.snap i (some c.row) }
  | .cas i =>
    match c.snap i, c.res i with
    | some s, Option.none =>
      if CanTransition s.status .approaching then
        if (casUpdateStatus c.row s.status .approaching s.version (some (drivers i))).1 then
          { c with
            row := (casUpdateStatus c.row s.status .approaching s.version (some (drivers i))).2
            res := Function.update c.res i (some .success) }
        else
          { c with res := Function.update c.res i (some .conflict) }
      else
        { c with res := Function.update c.res i (some .invalidState) }
    | _, _ => c

/-- Run an arbitrary interleaving of the N-thread accept race. -/
def execAccepts {n : Nat} (drivers : Fin n → String) (evs : List (AcceptEv n)) :
    AcceptConfig n :=
  evs.foldl (acceptStep drivers) (acceptInit n)

/-- Three distinct driver IDs, for the concrete witness race. -/
def witnessDrivers : Fin 3 → String := fun i => ["d0", "d1", "d2"].getD i.val ""

/-- A concrete full interleaving of a 3-driver accept race: drivers 0 and 1
read the fresh order, driver 0's CAS wins, driver 1's CAS loses the version
check, driver 2 reads the already-moved order and fails validation. -/
def witnessTrace : List (AcceptEv 3) :=
  [.read 0, .read 1, .cas 0, .cas 1, .read 2, .cas 2]

/-- Invariant of the accept race before any CAS has applied: the row is still
the fresh order, no thread has finished, and every snapshot is of the fresh
order. -/
def AcceptInvA {n : Nat} (c : AcceptConfig n) : Prop :=
  c.row = freshWaitingRow
  ∧ (∀ i, c.res i = Option.none)
  ∧ (∀ i, c.snap i = Option.none ∨ c.snap i = some freshWaitingRow)

/-- Invariant of the accept race after the winning CAS: thread `w` won, the
row records `w`'s driver ID at version 1, every other thread is unfinished or
lost with `conflict`/`invalidState`, and every snapshot is of the fresh or the
won row. -/
def AcceptInvB {n : Nat} (drivers : Fin n → String) (c : AcceptConfig n) : Prop :=
  ∃ w, c.row = wonRow (drivers w)
    ∧ c.res w = some CmdResult.success
    ∧ (∀ i, i ≠ w → c.res i = Option.none ∨ c.res i = some CmdResult.conflict
        ∨ c.res i = some CmdResult.invalidState)
    ∧ (∀ i, c.snap i = Option.none ∨ c.snap i = some freshWaitingRow
        ∨ c.snap i = some (wonRow (drivers w)))

/-- Full invariant of the accept race. -/
def AcceptInv {n : Nat} (drivers : Fin n → String) (c : AcceptConfig n) : Prop :=
  AcceptInvA c ∨ AcceptInvB drivers c

/-- `driverCancelBonusIncrement` from the scheduled-order workflow file:
added to `incentive_bonus` when a driver cancels a claimed order. -/
def driverCancelBonusIncrement : Int := 50

/-- A store call issued by a service command, as seen at the store
interface: the three conditional updates and the event append. -/
inductive StoreCall where
  | updateStatus (fromSt toSt : Status) (ver : Nat) (driver : Option String)
  | claimScheduled (driver : String) (ver : Nat)
  | reopenScheduled (ver : Nat) (bonus : Int)
  | appendEvent (fromSt toSt : Status) (actorType : String)
deriving DecidableEq, Repr

/-- Whether a store call conditionally mutates the order row. -/
def StoreCall.isMutation : StoreCall → Bool
  | .updateStatus _ _ _ _ => true
  | .claimScheduled _ _ => true
  | .reopenScheduled _ _ => true
  | .appendEvent _ _ _ => false

/-- Number of conditional row updates a command issued. -/
def mutationCount (calls : List StoreCall) : Nat :=
  (calls.filter StoreCall.isMutation).length

/-- Number of event appends a command issued. -/
def eventCount (calls : List StoreCall) : Nat :=
  (calls.filter fun c => !c.isMutation).length

/-- Result of a service command together with the store calls it issued, in
order. -/
structure CmdOutcome where
  result : CmdResult
  calls : List StoreCall
deriving DecidableEq, Repr

/-- The ten transition commands of the order service (claim C3), with the
per-command input fields that the control flow depends on. -/
inductive OrderCmd where
  | accept (driverID : String)
  | deny (driverID : String)
  | arrive
  | meet
  | complete
  | pay
  | cancel (actorType : String)
  | matchCmd (driverID : String)
  | claimScheduledCmd (orderID driverID : String)
  | cancelScheduledByDriver (orderID driverID : String)
deriving DecidableEq, Repr

/-- The shared shape of `Service.Accept` / `Deny` / `Arrive` / `Meet` /
`Complete` / `Pay` / `Cancel` / `Match`:
`store.Get` (`ErrNotFound` when absent), `CanTransition(o.Status, target)`
(`ErrInvalidState` when the edge is missing), one
`store.UpdateStatus(o.ID, o.Status, target, o.StatusVersion, driverArg)`
(`ErrConflict` when it did not apply, with no retry), then one
`store.AppendEvent`.  `o` is the `Get` response and `casApplied` the store's
"applied" report — both oracle inputs, so the theorem ranges over every store
behaviour. -/
def generalTransition (o : Option Row) (casApplied : Bool) (target : Status)
    (driverArg : Row → Option String) (eventFrom : Row → Status)
    (actor : String) : CmdOutcome :=
  match o with
  | Option.none => { result := .notFound, calls := [] }
  | some r =>
    if CanTransition r.status target then
      if casApplied then
        { result := .success
          calls := [.updateStatus r.status target r.version (driverArg r),
                    .appendEvent (eventFrom r) target actor] }
      else
        { result := .conflict
          calls := [.updateStatus r.status target r.version (driverArg r)] }
    else { result := .invalidState, calls := [] }

/-- The order service commands, translated one-to-one from the Go service
files (`Service.Accept` … `Service.CancelScheduledByDriver`).
`Accept`/`Match` pass the command's driver ID to the CAS and hard-code the
event as `waiting→approaching`; `Arrive`/`Meet`/`Complete`/`Pay`/`Cancel`
pass the loaded order's driver ID; `Deny`/`Pay`/`Cancel` record the loaded
status as the event's from-status.  `ClaimScheduled` and
`CancelScheduledByDriver` first reject empty order/driver IDs with
`ErrBadRequest`, then check `o.Status` directly (`!= StatusScheduled`
resp. `!= StatusAssigned`) and use the specialized store updates. -/
def runCommand (cmd : OrderCmd) (o : Option Row) (casApplied : Bool) : CmdOutcome :=
  match cmd with
  | .accept d =>
    generalTransition o casApplied .approaching (fun _ => some d) (fun _ => .waiting) "driver"
  | .deny d =>
    generalTransition o casApplied .denied (fun _ => some d) (fun r => r.status) "driver"
  | .arrive =>
    generalTransition o casApplied .arrived (fun r => r.driver) (fun _ => .approaching) "driver"
  | .meet =>
    generalTransition o casApplied .driving (fun r => r.driver) (fun _ => .arrived) "driver"
  | .complete =>
    generalTransition o casApplied .payment (fun r => r.driver) (fun _ => .driving) "driver"
  | .pay =>
    generalTransition o casApplied .complete (fun r => r.driver) (fun r => r.status) "system"
  | .cancel actorType =>
    generalTransition o casApplied .cancelled (fun r => r.driver) (fun r => r.status) actorType
  | .matchCmd d =>
    generalTransition o casApplied .approaching (fun _ => some d) (fun _ => .waiting) "system"
  | .claimScheduledCmd orderID driverID =>
    if orderID = "" ∨ driverID = "" then { result := .badRequest, calls := [] }
    else
      match o with
      | Option.none => { result := .notFound, calls := [] }
      | some r =>
        if r.status ≠ Status.scheduled then { result := .invalidState, calls := [] }
        else if casApplied then
          { result := .success
            calls := [.claimScheduled driverID r.version,
                      .appendEvent .scheduled .assigned "driver"] }
        else
          { result := .conflict, calls := [.claimScheduled driverID r.version] }
  | .cancelScheduledByDriver orderID driverID =>
    if orderID = "" ∨ driverID = "" then { result := .badRequest, calls := [] }
    else
      match o with
      | Option.none => { result := .notFound, calls := [] }
      | some r =>
        if r.status ≠ Status.assigned then { result := .invalidState, calls := [] }
        else if casApplied then
          { result := .success
            calls := [.reopenScheduled r.version driverCancelBonusIncrement,
                      .appendEvent .assigned .scheduled "driver"] }
        else
          { result := .conflict, calls := [.reopenScheduled r.version driverCancelBonusIncrement] }

/-- Target status of each command's transition. -/
def targetStatus : OrderCmd → Status
  | .accept _ => .approaching
  | .deny _ => .denied
  | .arrive => .arrived
  | .meet => .driving
  | .complete => .payment
  | .pay => .complete
  | .cancel _ => .cancelled
  | .matchCmd _ => .approaching
  | .claimScheduledCmd _ _ => .assigned
  | .cancelScheduledByDriver _ _ => .scheduled

/-- The empty-ID guard of `ClaimScheduled` / `CancelScheduledByDriver`
(`cmd.OrderID == "" || cmd.DriverID == ""`); `false` for all other commands,
which perform no such validation. -/
def cmdEmptyIDs : OrderCmd → Bool
  | .claimScheduledCmd orderID driverID => orderID = "" ∨ driverID = ""
  | .cancelScheduledByDriver orderID driverID => orderID = "" ∨ driverID = ""
  | _ => false

end Ark

namespace Ark

/-- One `order_state_events` row, restricted to the columns the claims are
about (`from_status`, `to_status`, `actor_type`). -/
structure EventRec where
  fromSt : Status
  toSt : Status
  actorType : String
deriving DecidableEq, Repr

/-- A single order's persistent state: its `orders` row and its slice of the
append-only `order_state_events` log. -/
structure OrderSt where
  row : Row
  events : List EventRec
deriving DecidableEq, Repr

/-- The mutating operations that can touch one existing order: the service
transition commands plus the expiry sweep `Store.ExpireOverdueScheduled`
(whose time predicate `scheduled_at + schedule_window_mins < NOW()` is
abstracted into the boolean `overdue`). -/
inductive SeqCmd where
  | accept (driverID : String)
  | deny (driverID : String)
  | arrive
  | meet
  | complete
  | pay
  | cancel (actorType : String)
  | matchCmd (driverID : String)
  | claimScheduled (driverID : String)
  | cancelScheduledByDriver (driverID : String)
  | expireOverdue (overdue : Bool)
deriving DecidableEq, Repr

/-- Sequential (single-writer) semantics of each operation on one existing
order, translated from the Go service/store files.  Because the CAS is
checked against the same row the command loaded, the CAS always applies once
validation passed, so reachability under this relation covers exactly the
states reachable under concurrency (a lost CAS mutates nothing).  Events are
appended with the from/to/actor values the Go code passes to `AppendEvent`
(`Accept`/`Match` hard-code `waiting→approaching`); the expiry sweep appends
nothing.  The single-order machine keeps `Get` total; the scheduled
commands' empty-driver-ID guard is retained, their order-ID guard concerns
which order is addressed and is outside a single-order state. -/
def runSeq (c : SeqCmd) (s : OrderSt) : CmdResult × OrderSt :=
  match c with
  | .accept d =>
    if CanTransition s.row.status .approaching then
      (.success,
        { row := (casUpdateStatus s.row s.row.status .approaching s.row.version (some d)).2
          events := s.events ++ [⟨.waiting, .approaching, "driver"⟩] })
    else (.invalidState, s)
  | .deny d =>
    if CanTransition s.row.status .denied then
      (.success,
        { row := (casUpdateStatus s.row s.row.status .denied s.row.version (some d)).2
          events := s.events ++ [⟨s.row.status, .denied, "driver"⟩] })
    else (.invalidState, s)
  | .arrive =>
    if CanTransition s.row.status .arrived then
      (.success,
        { row := (casUpdateStatus s.row s.row.status .arrived s.row.version s.row.driver).2
          events := s.events ++ [⟨.approaching, .arrived, "driver"⟩] })
    else (.invalidState, s)
  | .meet =>
    if CanTransition s.row.status .driving then
      (.success,
        { row := (casUpdateStatus s.row s.row.status .driving s.row.version s.row.driver).2
          events := s.events ++ [⟨.arrived, .driving, "driver"⟩] })
    else (.invalidState, s)
  | .complete =>
    if CanTransition s.row.status .payment then
      (.success,
        { row := (casUpdateStatus s.row s.row.status .payment s.row.version s.row.driver).2
          events := s.events ++ [⟨.driving, .payment, "driver"⟩] })
    else (.invalidState, s)
  | .pay =>
    if CanTransition s.row.status .complete then
      (.success,
        { row := (casUpdateStatus s.row s.row.status .complete s.row.version s.row.driver).2
          events := s.events ++ [⟨s.row.status, .complete, "system"⟩] })
    else (.invalidState, s)
  | .cancel actorType =>
    if CanTransition s.row.status .cancelled then
      (.success,
        { row := (casUpdateStatus s.row s.row.status .cancelled s.row.version s.row.driver).2
          events := s.events ++ [⟨s.row.status, .cancelled, actorType⟩] })
    else (.invalidState, s)
  | .matchCmd d =>
    if CanTransition s.row.status .approaching then
      (.success,
        { row := (casUpdateStatus s.row s.row.status .approaching s.row.version (some d)).2
          events := s.events ++ [⟨.waiting, .approaching, "system"⟩] })
    else (.invalidState, s)
  | .claimScheduled d =>
    if d = "" then (.badRequest, s)
    else if s.row.status = Status.scheduled then
      (.success,
        { row := (casClaimScheduled s.row d s.row.version).2
          events := s.events ++ [⟨.scheduled, .assigned, "driver"⟩] })
    else (.invalidState, s)
  | .cancelScheduledByDriver d =>
    if d = "" then (.badRequest, s)
    else if s.row.status = Status.assigned then
      (.success,
        { row := (casReopenScheduled s.row s.row.version driverCancelBonusIncrement).2
          events := s.events ++ [⟨.assigned, .scheduled, "driver"⟩] })
    else (.invalidState, s)
  | .expireOverdue overdue =>
    if s.row.status = Status.scheduled ∧ overdue = true then
      (.success,
        { row := { status := .expired
                   version := s.row.version + 1
                   driver := s.row.driver
                   bonus := s.row.bonus }
          events := s.events })
    else (.success, s)

/-- The event each service command passes to `AppendEvent` on success
(fields hard-coded resp. taken from the loaded order exactly as in the Go
code); the value for `expireOverdue` is irrelevant (it never appends). -/
def nominalEvent (c : SeqCmd) (r : Row) : EventRec :=
  match c with
  | .accept _ => ⟨.waiting, .approaching, "driver"⟩
  | .deny _ => ⟨r.status, .denied, "driver"⟩
  | .arrive => ⟨.approaching, .arrived, "driver"⟩
  | .meet => ⟨.arrived, .driving, "driver"⟩
  | .complete => ⟨.driving, .payment, "driver"⟩
  | .pay => ⟨r.status, .complete, "system"⟩
  | .cancel actorType => ⟨r.status, .cancelled, actorType⟩
  | .matchCmd _ => ⟨.waiting, .approaching, "system"⟩
  | .claimScheduled _ => ⟨.scheduled, .assigned, "driver"⟩
  | .cancelScheduledByDriver _ => ⟨.assigned, .scheduled, "driver"⟩
  | .expireOverdue _ => ⟨.scheduled, .expired, "system"⟩

/-- State of a freshly created instant order (`Service.Create`): row in
`waiting` at version 0 plus the creation event `none→waiting`. -/
def initInstantOrder : OrderSt :=
  { row := freshWaitingRow, events := [⟨.none, .waiting, "passenger"⟩] }

/-- A fresh scheduled order row (`Service.CreateScheduled`): status
`scheduled`, version 0, no driver, zero bonus. -/
def freshScheduledRow : Row :=
  { status := .scheduled, version := 0, driver := Option.none, bonus := 0 }

/-- State of a freshly created scheduled order plus its creation event. -/
def initScheduledOrder : OrderSt :=
  { row := freshScheduledRow, events := [⟨.none, .scheduled, "passenger"⟩] }

/-- Order states reachable through the exposed operations: a creation
followed by any sequence of commands/sweeps. -/
inductive Reachable : OrderSt → Prop where
  | instant : Reachable initInstantOrder
  | scheduledInit : Reachable initScheduledOrder
  | step (c : SeqCmd) {s : OrderSt} : Reachable s → Reachable (runSeq c s).2

/-- The `driver_id` invariant that actually holds on the code (claim C6,
amended): non-null in the actively-driven statuses, null in `scheduled`,
`waiting` and `expired` — and unconstrained in `cancelled`, which keeps
whatever driver the order had when it was cancelled. -/
def DriverInv (r : Row) : Prop :=
  ((r.status = .assigned ∨ r.status = .approaching ∨ r.status = .arrived
      ∨ r.status = .driving ∨ r.status = .payment ∨ r.status = .complete) →
    r.driver ≠ Option.none)
  ∧ ((r.status = .scheduled ∨ r.status = .waiting ∨ r.status = .expired) →
    r.driver = Option.none)

/-- Claim C6 as stated, written from the spec's words: `driver_id` is
non-null iff the status is one of
{assigned, approaching, arrived, driving, payment, complete}. -/
def specDriverNonNullIff (r : Row) : Prop :=
  r.driver ≠ Option.none ↔
    (r.status = .assigned ∨ r.status = .approaching ∨ r.status = .arrived
      ∨ r.status = .driving ∨ r.status = .payment ∨ r.status = .complete)

end Ark

namespace Ark

/-- The simultaneous swap `cp[i], cp[j] = cp[j], cp[i]` on a Go slice,
modelled on lists (both reads happen before both writes; `getD` defaults are
never hit at the in-bounds indices the shuffle uses). -/
def listSwap (l : List String) (i j : Nat) : List String :=
  (l.set i (l.getD j "")).set j (l.getD i "")

/-- The Fisher-Yates loop of `PickRandomDrivers`:
`for i := len(cp) - 1; i > 0; i-- { j := rand.Intn(i + 1); swap }`.
The counter argument is the current value of `i`; `rand.Intn(i + 1)` at
index `i` is modelled as `rnd i % (i + 1)`, which ranges over exactly the
values `0 … i` that `rand.Intn` contracts to return. -/
def fyLoop (rnd : Nat → Nat) : Nat → List String → List String
  | 0, cp => cp
  | i + 1, cp => fyLoop rnd i (listSwap cp (i + 1) (rnd (i + 1) % (i + 2)))

/-- `PickRandomDrivers(pool, n)` from the matching service file: `nil` for
`n <= 0` or an empty pool; otherwise Fisher-Yates-shuffle a defensive copy
`cp` of the pool and return it whole when `n > len(cp)`, else its first `n`
entries.  Go slice semantics are made explicit by returning the pair
(result, the input pool after the call): the code writes only to `cp`
(`cp := make(...); copy(cp, pool)`), so the pool component is returned
unchanged.  `n` is a Go `int`, modelled as `Int`. -/
def pickRandomDrivers (rnd : Nat → Nat) (pool : List String) (n : Int) :
    List String × List String :=
  if n ≤ 0 ∨ pool.length = 0 then ([], pool)
  else
    let cp := fyLoop rnd (pool.length - 1) pool
    if n > (cp.length : Int) then (cp, pool) else (cp.take n.toNat, pool)

end Ark

namespace Ark

/-- Constant `notifyInitialCount` = 5 (drivers notified on first dispatch),
from the matching service constants. -/
def notifyInitialCount : Int := 5

/-- Constant `selectPoolSize` = 10 (nearby drivers sampled before picking
`notifyInitialCount`). -/
def selectPoolSize : Int := 10

/-- Constant `broadcastDelay` = 30 seconds (wait after initial dispatch
before opening the order to all drivers). -/
def broadcastDelay : Int := 30

/-- Constant `oneDayBefore` = 24 hours, in seconds (lead-time threshold for
the extra broadcast). -/
def oneDayBefore : Int := 86400

/-- Constant `broadcastExtraCount` = 10 (extra drivers notified at the
T-24h broadcast). -/
def broadcastExtraCount : Int := 10

/-- Per-order dispatch bookkeeping held by the matching store, modelling the
Redis keys `matching:order:<id>:dispatched_at` / `:notified` / `:broadcast`
(each absent until first written; timestamps as `Int` seconds). -/
structure DispatchRecord where
  dispatchedAt : Option Int
  notified : List String
  broadcast : Bool
deriving DecidableEq, Repr

/-- State of an order never seen by the matching store: no key exists. -/
def initDispatchRecord : DispatchRecord :=
  { dispatchedAt := Option.none, notified := [], broadcast := false }

/-- Function `Store.RecordDispatch` of the matching store: a pipeline of
`SET dispatched_at now` (a plain SET — it overwrites any existing value)
and `SADD notified driverIDs`. -/
def recordDispatch (st : DispatchRecord) (now : Int) (driverIDs : List String) :
    DispatchRecord :=
  { st with
    dispatchedAt := some now
    notified := st.notified ++ driverIDs.filter (fun d => !st.notified.contains d) }

/-- Function `Store.GetDispatchedAt`: `GET dispatched_at`, with the found
flag folded into the `Option` (`Option.none` = redis.Nil = never dispatched). -/
def getDispatchedAt (st : DispatchRecord) : Option Int :=
  st.dispatchedAt

/-- Function `Store.MarkOrderBroadcast`: `SET broadcast "1"`. -/
def markOrderBroadcast (st : DispatchRecord) : DispatchRecord :=
  { st with broadcast := true }

/-- Function `Store.IsOrderBroadcast`: `GET broadcast`, absent = false. -/
def isOrderBroadcast (st : DispatchRecord) : Bool :=
  st.broadcast

/-- The action `processScheduledOrder` decides for one order on one tick. -/
inductive TickAction where
  | dispatchInitial
  | broadcastWider
  | markBroadcast
  | noAction
deriving DecidableEq, Repr

/-- Decision tree of `Service.processScheduledOrder` (matching service):
T0 when no dispatch timestamp is recorded; otherwise nothing once broadcast;
otherwise T-24h (wider broadcast + mark) when `scheduled_at` is non-nil and
within `oneDayBefore`; otherwise T+30s (mark only) when `broadcastDelay` has
elapsed since `dispatched_at`. -/
def processScheduledOrder (st : DispatchRecord) (scheduledAt : Option Int)
    (now : Int) : TickAction :=
  match st.dispatchedAt with
  | Option.none => .dispatchInitial
  | some dAt =>
    if st.broadcast then .noAction
    else
      match scheduledAt with
      | some sAt =>
        if sAt - now ≤ oneDayBefore then .broadcastWider
        else if now - dAt ≥ broadcastDelay then .markBroadcast
        else .noAction
      | Option.none =>
        if now - dAt ≥ broadcastDelay then .markBroadcast
        else .noAction

/-- Effect of `Service.dispatchInitial` on the dispatch record: no-op when
no drivers are nearby; otherwise sample a pool of up to `selectPoolSize`,
notify up to `notifyInitialCount` of them, and `RecordDispatch` the notified
set (push notifications have no store effect). -/
def dispatchInitialStep (st : DispatchRecord) (nearby : List String)
    (rnd : Nat → Nat) (now : Int) : DispatchRecord :=
  if nearby.length = 0 then st
  else
    recordDispatch st now
      (pickRandomDrivers rnd (pickRandomDrivers rnd nearby selectPoolSize).1
        notifyInitialCount).1

/-- Environment of one scheduler tick for one order: the order's
`scheduled_at`, the tick's `now`, the nearby-driver query result, and the
randomness source. -/
structure TickInput where
  scheduledAt : Option Int
  now : Int
  nearby : List String
  rnd : Nat → Nat

/-- One scheduler tick on one order: decide via `processScheduledOrder`,
then perform the store effects the matching service code performs for that
branch (`broadcastWider` notifies drivers and then marks the broadcast
latch; the T+30s branch only marks it). -/
def tick (st : DispatchRecord) (inp : TickInput) : TickAction × DispatchRecord :=
  match processScheduledOrder st inp.scheduledAt inp.now with
  | .dispatchInitial => (.dispatchInitial, dispatchInitialStep st inp.nearby inp.rnd inp.now)
  | .broadcastWider => (.broadcastWider, markOrderBroadcast st)
  | .markBroadcast => (.markBroadcast, markOrderBroadcast st)
  | .noAction => (.noAction, st)

/-- Number of ticks of a run (one order, a sequence of tick environments)
whose action/input satisfy `p`. -/
def countTicks (p : TickAction → TickInput → Bool) :
    DispatchRecord → List TickInput → Nat
  | _, [] => 0
  | st, inp :: rest =>
    (if p (tick st inp).1 inp then 1 else 0) + countTicks p (tick st inp).2 rest

/-- A tick on which Tier 1 actually dispatches: the decision is
`dispatchInitial` and the nearby pool is non-empty (so `RecordDispatch` and
the notifications happen). -/
def isTier1Fire (a : TickAction) (inp : TickInput) : Bool :=
  a = TickAction.dispatchInitial && !inp.nearby.isEmpty

/-- A tick that performs the Tier 3 wide broadcast. -/
def isTier3 (a : TickAction) (_ : TickInput) : Bool :=
  a = TickAction.broadcastWider

/-- A tick that performs the Tier 2 broadcast-flag set. -/
def isTier2 (a : TickAction) (_ : TickInput) : Bool :=
  a = TickAction.markBroadcast

end Ark

namespace Ark

/-- Money as in `types.Money`: an integer amount plus a currency code. -/
structure Money where
  amount : Int
  currency : String
deriving DecidableEq, Repr

/-- A coordinate pair as in `types.Point`. -/
structure Point where
  lat : Float
  lng : Float
deriving Repr

/-- Input of `Service.CreateScheduled` (`CreateScheduledCommand`), with the
timestamp as `Int` seconds. -/
structure CreateScheduledCmd where
  passengerID : String
  pickup : Point
  dropoff : Point
  rideType : String
  scheduledAt : Int
  scheduleWindowMins : Int

/-- The order row `Service.CreateScheduled` persists via
`Store.CreateScheduled`. -/
structure NewScheduledOrder where
  id : String
  passengerID : String
  status : Status
  statusVersion : Nat
  pickup : Point
  dropoff : Point
  rideType : String
  estimatedFee : Money
  orderType : String
  scheduledAt : Int
  scheduleWindowMins : Int
  cancelDeadlineAt : Int
  incentiveBonus : Int

/-- Function `Service.CreateScheduled`, translated from the scheduled-order
workflow file.  Guards in source order: empty `passenger_id`/`ride_type`,
`schedule_window_mins <= 0`, `scheduled_at` before `now + 30min` (all
`BadRequest`), then the `HasActiveByPassenger` existence check (its oracle
result is the `active` input; `ActiveOrder` when it holds).  The pricing
call is the oracle `est` (`Option.none` = estimate failed, falling back to a
zero fee); the random `newID()` is the `id` input.
`cancel_deadline_at = scheduled_at - schedule_window_mins` minutes. -/
def createScheduled (cmd : CreateScheduledCmd) (now : Int) (active : Bool)
    (est : Option Money) (id : String) : Except CmdResult NewScheduledOrder :=
  if cmd.passengerID = "" ∨ cmd.rideType = "" then .error .badRequest
  else if cmd.scheduleWindowMins ≤ 0 then .error .badRequest
  else if cmd.scheduledAt < now + 30 * 60 then .error .badRequest
  else if active then .error .activeOrder
  else
    .ok { id := id
          passengerID := cmd.passengerID
          status := .scheduled
          statusVersion := 0
          pickup := cmd.pickup
          dropoff := cmd.dropoff
          rideType := cmd.rideType
          estimatedFee := est.getD { amount := 0, currency := "TWD" }
          orderType := "scheduled"
          scheduledAt := cmd.scheduledAt
          scheduleWindowMins := cmd.scheduleWindowMins
          cancelDeadlineAt := cmd.scheduledAt - cmd.scheduleWindowMins * 60
          incentiveBonus := 0 }

end Ark

-- ===== Theorems =====

namespace Ark

/-- C1: `CanTransition` agrees with the canonical table of spec §4.1 on every
pair of statuses; in particular the terminal statuses `complete`, `cancelled`
and `expired` (and the virtual `none`) have no outgoing edges, and the skips
`waiting→driving` / `waiting→complete` are rejected. -/
theorem canTransition_matches_spec_table :
    (∀ fromSt toSt, CanTransition fromSt toSt = specTransitionTable fromSt toSt)
    ∧ (∀ toSt, CanTransition .complete toSt = false)
    ∧ (∀ toSt, CanTransition .cancelled toSt = false)
    ∧ (∀ toSt, CanTransition .expired toSt = false)
    ∧ CanTransition .waiting .driving = false
    ∧ CanTransition .waiting .complete = false := by
  refine ⟨fun fromSt toSt => ?_, fun toSt => ?_, fun toSt => ?_, fun toSt => ?_, rfl, rfl⟩
  · cases fromSt <;> cases toSt <;> rfl
  · cases toSt <;> rfl
  · cases toSt <;> rfl
  · cases toSt <;> rfl

/-- C4 (failing input): the code's transition table has no `waiting→denied`
and no `denied→waiting` edge, so `CanTransition` rejects both directions and
the `Deny` command can never succeed — although `model.go`'s own comment on
the `waiting` entry ("→ Denied on driver decline"), `docs/orderflow.md`, and
spec §4.1 all describe `denied` as reachable from `waiting` with a retry edge
back to `waiting`. -/
theorem canTransition_denied_edges_missing :
    CanTransition .waiting .denied = false
    ∧ CanTransition .denied .waiting = false := ⟨rfl, rfl⟩

end Ark

namespace Ark

/-- A CAS attempt that applied carried the row's current version as its
token, and bumped the version by one. -/
theorem applyAttempt_applied {r : Row} {a : CasAttempt}
    (h : (applyAttempt r a).1 = true) :
    r.version = a.ver' ∧ (applyAttempt r a).2.version = r.version + 1 := by
  cases a with
  | update fromSt toSt v d =>
    by_cases hc : r.status = fromSt ∧ r.version = v
    · simp [applyAttempt, casUpdateStatus, CasAttempt.ver', hc]
    · simp [applyAttempt, casUpdateStatus, hc] at h
  | claim d v =>
    by_cases hc : r.status = Status.scheduled ∧ r.version = v
    · simp [applyAttempt, casClaimScheduled, CasAttempt.ver', hc]
    · simp [applyAttempt, casClaimScheduled, hc] at h
  | reopen v b =>
    by_cases hc : r.status = Status.assigned ∧ r.version = v
    · simp [applyAttempt, casReopenScheduled, CasAttempt.ver', hc]
    · simp [applyAttempt, casReopenScheduled, hc] at h

/-- A CAS attempt that did not apply left the row untouched. -/
theorem applyAttempt_not_applied {r : Row} {a : CasAttempt}
    (h : (applyAttempt r a).1 = false) : (applyAttempt r a).2 = r := by
  cases a with
  | update fromSt toSt v d =>
    by_cases hc : r.status = fromSt ∧ r.version = v
    · simp [applyAttempt, casUpdateStatus, hc] at h
    · simp [applyAttempt, casUpdateStatus, hc]
  | claim d v =>
    by_cases hc : r.status = Status.scheduled ∧ r.version = v
    · simp [applyAttempt, casClaimScheduled, hc] at h
    · simp [applyAttempt, casClaimScheduled, hc]
  | reopen v b =>
    by_cases hc : r.status = Status.assigned ∧ r.version = v
    · simp [applyAttempt, casReopenScheduled, hc] at h
    · simp [applyAttempt, casReopenScheduled, hc]

/-- No attempt of a sequence whose shared version token differs from the
row's current version ever applies. -/
theorem appliedCount_eq_zero {v : Nat} :
    ∀ (l : List CasAttempt) (r : Row), (∀ a ∈ l, a.ver' = v) →
      r.version ≠ v → appliedCount r l = 0 := by
  intro l
  induction l with
  | nil => intro r _ _; rfl
  | cons a rest ih =>
    intro r hall hv
    cases h1 : (applyAttempt r a).1 with
    | true =>
      obtain ⟨he, _⟩ := applyAttempt_applied h1
      exact absurd (he.trans (hall a (by simp))) hv
    | false =>
      have hr := applyAttempt_not_applied h1
      simp only [appliedCount, h1, Bool.false_eq_true, if_false, hr, Nat.zero_add]
      exact ih r (fun b hb => hall b (by simp [hb])) hv

/-- At most one of a sequence of CAS attempts sharing one version token
applies. -/
theorem appliedCount_le_one {v : Nat} :
    ∀ (l : List CasAttempt) (r : Row), (∀ a ∈ l, a.ver' = v) →
      appliedCount r l ≤ 1 := by
  intro l
  induction l with
  | nil => intro r _; exact Nat.zero_le 1
  | cons a rest ih =>
    intro r hall
    cases h1 : (applyAttempt r a).1 with
    | false =>
      simp only [appliedCount, h1, Bool.false_eq_true, if_false, Nat.zero_add,
        applyAttempt_not_applied h1]
      exact ih _ (fun b hb => hall b (by simp [hb]))
    | true =>
      obtain ⟨he, hv2⟩ := applyAttempt_applied h1
      have hne : (applyAttempt r a).2.version ≠ v := by
        rw [hv2, he, hall a (by simp)]
        omega
      have h0 : appliedCount (applyAttempt r a).2 rest = 0 :=
        appliedCount_eq_zero rest _ (fun b hb => hall b (by simp [hb])) hne
      simp [appliedCount, h1, h0]

/-- One interleaving step of the accept race preserves the invariant. -/
theorem acceptStep_inv {n : Nat} (drivers : Fin n → String) (c : AcceptConfig n)
    (e : AcceptEv n) (h : AcceptInv drivers c) :
    AcceptInv drivers (acceptStep drivers c e) := by
  cases e with
  | read i =>
    rcases h with ⟨hrow, hres, hsnap⟩ | ⟨w, hrow, hresw, hlost, hsnap⟩
    · left
      refine ⟨hrow, hres, fun j => ?_⟩
      by_cases hj : j = i
      · subst hj
        right
        simp [acceptStep, Function.update, hrow]
      · simpa [acceptStep, Function.update, hj] using hsnap j
    · right
      refine ⟨w, hrow, hresw, hlost, fun j => ?_⟩
      by_cases hj : j = i
      · subst hj
        right; right
        simp [acceptStep, Function.update, hrow]
      · simpa [acceptStep, Function.update, hj] using hsnap j
  | cas i =>
    cases hs : c.snap i with
    | none =>
      simpa [acceptStep, hs] using h
    | some s =>
      cases hr : c.res i with
      | some x =>
        simpa [acceptStep, hs, hr] using h
      | none =>
        rcases h with ⟨hrow, hres, hsnap⟩ | ⟨w, hrow, hresw, hlost, hsnap⟩
        · -- phase A: this CAS wins
          have hsF : s = freshWaitingRow := by
            rcases hsnap i with h0 | h0 <;> rw [hs] at h0 <;> simp_all
          subst hsF
          have hstep : acceptStep drivers c (.cas i) =
              { c with
                row := wonRow (drivers i)
                res := Function.update c.res i (some CmdResult.success) } := by
            simp only [acceptStep, hs, hr, hrow]
            rfl
          rw [hstep]
          right
          refine ⟨i, rfl, by simp [Function.update], fun j hj => ?_, fun j => ?_⟩
          · left
            simpa [Function.update, hj] using hres j
          · rcases hsnap j with h0 | h0
            · exact Or.inl h0
            · exact Or.inr (Or.inl h0)
        · -- phase B: this CAS loses
          have hiw : i ≠ w := by
            intro he
            rw [he, hresw] at hr
            cases hr
          rcases hsnap i with h0 | h0 | h0
          · rw [hs] at h0; cases h0
          · -- stale snapshot of the fresh row: version check fails, Conflict
            have hsF : s = freshWaitingRow := by rw [hs] at h0; injection h0
            subst hsF
            have hstep : acceptStep drivers c (.cas i) =
                { c with res := Function.update c.res i (some CmdResult.conflict) } := by
              simp only [acceptStep, hs, hr, hrow]
              rfl
            rw [hstep]
            right
            refine ⟨w, hrow, ?_, fun j hj => ?_, hsnap⟩
            · simpa [Function.update, (Ne.symm hiw)] using hresw
            · by_cases hji : j = i
              · subst hji
                right; left
                simp [Function.update]
              · rcases hlost j hj with h1 | h1 | h1 <;>
                  simp [Function.update, hji, h1]
          · -- fresh snapshot of the won row: validation fails, InvalidState
            have hsF : s = wonRow (drivers w) := by rw [hs] at h0; injection h0
            subst hsF
            have hstep : acceptStep drivers c (.cas i) =
                { c with res := Function.update c.res i (some CmdResult.invalidState) } := by
              simp only [acceptStep, hs, hr, hrow]
              rfl
            rw [hstep]
            right
            refine ⟨w, hrow, ?_, fun j hj => ?_, hsnap⟩
            · simpa [Function.update, (Ne.symm hiw)] using hresw
            · by_cases hji : j = i
              · subst hji
                right; right
                simp [Function.update]
              · rcases hlost j hj with h1 | h1 | h1 <;>
                  simp [Function.update, hji, h1]

/-- The invariant holds after any interleaving. -/
theorem foldl_acceptStep_inv {n : Nat} (drivers : Fin n → String) :
    ∀ (evs : List (AcceptEv n)) (c : AcceptConfig n),
      AcceptInv drivers c → AcceptInv drivers (evs.foldl (acceptStep drivers) c) := by
  intro evs
  induction evs with
  | nil => intro c h; exact h
  | cons e rest ih =>
    intro c h
    exact ih _ (acceptStep_inv drivers c e h)

/-- C2: (i) for any single order row, at most one of arbitrarily many
serialized compare-and-swap attempts (`UpdateStatus`, `ClaimScheduled` or
`ReopenScheduled`) carrying the same `status_version` token applies; (ii) in
every complete interleaving of N concurrent `Service.Accept` calls with N
distinct driver IDs against one freshly created order, exactly one call
succeeds, every other call returns `Conflict` or `InvalidState`, and the
final row is `approaching` at version 1 with `driver_id` set to the winner
and to no loser. -/
theorem cas_single_winner :
    (∀ (v : Nat) (l : List CasAttempt) (r : Row),
      (∀ a ∈ l, a.ver' = v) → appliedCount r l ≤ 1)
    ∧ (∀ (n : Nat) (drivers : Fin n → String) (evs : List (AcceptEv n)),
      0 < n → Function.Injective drivers →
      (∀ i, ((execAccepts drivers evs).res i).isSome) →
      ∃ w : Fin n,
        (execAccepts drivers evs).res w = some CmdResult.success
        ∧ (∀ i, i ≠ w →
            (execAccepts drivers evs).res i = some CmdResult.conflict
            ∨ (execAccepts drivers evs).res i = some CmdResult.invalidState)
        ∧ (execAccepts drivers evs).row = wonRow (drivers w)
        ∧ (∀ i, i ≠ w → (execAccepts drivers evs).row.driver ≠ some (drivers i))) := by
  constructor
  · intro v l r hall
    exact appliedCount_le_one l r hall
  · intro n drivers evs hn hinj hall
    have hinv : AcceptInv drivers (execAccepts drivers evs) := by
      apply foldl_acceptStep_inv
      left
      exact ⟨rfl, fun _ => rfl, fun _ => Or.inl rfl⟩
    rcases hinv with ⟨_, hres, _⟩ | ⟨w, hrow, hresw, hlost, _⟩
    · exact absurd (hres ⟨0, hn⟩) (Option.isSome_iff_ne_none.mp (hall ⟨0, hn⟩))
    · refine ⟨w, hresw, fun i hi => ?_, hrow, fun i hi => ?_⟩
      · rcases hlost i hi with h1 | h1 | h1
        · exact absurd h1 (Option.isSome_iff_ne_none.mp (hall i))
        · exact Or.inl h1
        · exact Or.inr h1
      · rw [hrow]
        intro hcontra
        simp only [wonRow, Option.some.injEq] at hcontra
        exact hi (hinj hcontra).symm

/-- C2 witness: the at-most-one bound at a concrete attempt list, and the
concrete 3-driver interleaving `witnessTrace`, in which driver `d0` wins. -/
theorem cas_single_winner_witness :
    appliedCount freshWaitingRow
      [CasAttempt.update .waiting .approaching 0 (some "d0"),
       CasAttempt.update .waiting .approaching 0 (some "d1"),
       CasAttempt.claim "d2" 0] ≤ 1
    ∧ ∃ w : Fin 3,
        (execAccepts witnessDrivers witnessTrace).res w = some CmdResult.success
        ∧ (∀ i, i ≠ w →
            (execAccepts witnessDrivers witnessTrace).res i = some CmdResult.conflict
            ∨ (execAccepts witnessDrivers witnessTrace).res i = some CmdResult.invalidState)
        ∧ (execAccepts witnessDrivers witnessTrace).row = wonRow (witnessDrivers w)
        ∧ (∀ i, i ≠ w →
            (execAccepts witnessDrivers witnessTrace).row.driver ≠ some (witnessDrivers i)) :=
  ⟨cas_single_winner.1 0 _ freshWaitingRow (by decide),
   cas_single_winner.2 3 witnessDrivers witnessTrace (by decide) (by decide) (by decide)⟩

end Ark

namespace Ark

/-- `assigned` is reachable in one step exactly from `scheduled`, so
`ClaimScheduled`'s direct check `o.Status != StatusScheduled` coincides with
the structural predicate. -/
theorem canTransition_to_assigned (st : Status) :
    CanTransition st .assigned = true ↔ st = .scheduled := by
  cases st <;> decide

/-- `scheduled` is reachable in one step exactly from `assigned`, so
`CancelScheduledByDriver`'s direct check `o.Status != StatusAssigned`
coincides with the structural predicate. -/
theorem canTransition_to_scheduled (st : Status) :
    CanTransition st .scheduled = true ↔ st = .assigned := by
  cases st <;> decide

/-- The shared load → validate → CAS → translate shape satisfies the general
transition procedure: `NotFound` on a missing order with no store writes,
`InvalidState` on a missing edge with no store writes, `Conflict` with
exactly one (unapplied) conditional update and no retry, and success with
exactly one applied update and one event append; a row mutation is applied
iff the command succeeded. -/
theorem generalTransition_procedure (o : Option Row) (cas : Bool) (target : Status)
    (driverArg : Row → Option String) (eventFrom : Row → Status) (actor : String) :
    ((generalTransition o cas target driverArg eventFrom actor).result = CmdResult.badRequest ↔ False)
    ∧ ((o = Option.none →
          generalTransition o cas target driverArg eventFrom actor = ⟨.notFound, []⟩)
       ∧ (∀ r, o = some r →
           ((CanTransition r.status target = false →
               generalTransition o cas target driverArg eventFrom actor = ⟨.invalidState, []⟩)
            ∧ (CanTransition r.status target = true → cas = false →
                (generalTransition o cas target driverArg eventFrom actor).result = .conflict
                ∧ mutationCount (generalTransition o cas target driverArg eventFrom actor).calls = 1
                ∧ eventCount (generalTransition o cas target driverArg eventFrom actor).calls = 0)
            ∧ (CanTransition r.status target = true → cas = true →
                (generalTransition o cas target driverArg eventFrom actor).result = .success
                ∧ mutationCount (generalTransition o cas target driverArg eventFrom actor).calls = 1
                ∧ eventCount (generalTransition o cas target driverArg eventFrom actor).calls = 1))))
    ∧ ((generalTransition o cas target driverArg eventFrom actor).result = .success ↔
        (cas = true ∧ mutationCount (generalTransition o cas target driverArg eventFrom actor).calls = 1)) := by
  cases o with
  | none =>
    simp [generalTransition, mutationCount]
  | some r =>
    by_cases hct : CanTransition r.status target = true
    · cases cas <;>
        simp [generalTransition, hct, mutationCount, eventCount, StoreCall.isMutation]
    · simp only [Bool.not_eq_true] at hct
      cases cas <;>
        simp [generalTransition, hct, mutationCount, eventCount]

/-- C3 (amended): every order transition command follows the general
procedure — `NotFound` when the order is absent, `InvalidState` when the
transition edge is not permitted, `Conflict` with exactly one conditional
update and no retry when the store reports "not applied", success with
exactly one applied update (and one event append) otherwise, and a row
mutation is applied iff the command succeeded — except that `ClaimScheduled`
and `CancelScheduledByDriver` first return `BadRequest` on an empty order or
driver ID, before the store lookup. -/
theorem command_general_procedure (cmd : OrderCmd) (o : Option Row) (cas : Bool) :
    ((runCommand cmd o cas).result = CmdResult.badRequest ↔ cmdEmptyIDs cmd = true)
    ∧ (cmdEmptyIDs cmd = false →
        ((o = Option.none → runCommand cmd o cas = ⟨.notFound, []⟩)
         ∧ (∀ r, o = some r →
             ((CanTransition r.status (targetStatus cmd) = false →
                 runCommand cmd o cas = ⟨.invalidState, []⟩)
              ∧ (CanTransition r.status (targetStatus cmd) = true → cas = false →
                  (runCommand cmd o cas).result = .conflict
                  ∧ mutationCount (runCommand cmd o cas).calls = 1
                  ∧ eventCount (runCommand cmd o cas).calls = 0)
              ∧ (CanTransition r.status (targetStatus cmd) = true → cas = true →
                  (runCommand cmd o cas).result = .success
                  ∧ mutationCount (runCommand cmd o cas).calls = 1
                  ∧ eventCount (runCommand cmd o cas).calls = 1)))))
    ∧ ((runCommand cmd o cas).result = .success ↔
        (cas = true ∧ mutationCount (runCommand cmd o cas).calls = 1)) := by
  cases cmd with
  | accept d =>
    have h := generalTransition_procedure o cas .approaching
      (fun _ => some d) (fun _ => Status.waiting) "driver"
    exact ⟨by simpa [cmdEmptyIDs] using h.1, fun _ => h.2.1, h.2.2⟩
  | deny d =>
    have h := generalTransition_procedure o cas .denied
      (fun _ => some d) (fun r => r.status) "driver"
    exact ⟨by simpa [cmdEmptyIDs] using h.1, fun _ => h.2.1, h.2.2⟩
  | arrive =>
    have h := generalTransition_procedure o cas .arrived
      (fun r => r.driver) (fun _ => Status.approaching) "driver"
    exact ⟨by simpa [cmdEmptyIDs] using h.1, fun _ => h.2.1, h.2.2⟩
  | meet =>
    have h := generalTransition_procedure o cas .driving
      (fun r => r.driver) (fun _ => Status.arrived) "driver"
    exact ⟨by simpa [cmdEmptyIDs] using h.1, fun _ => h.2.1, h.2.2⟩
  | complete =>
    have h := generalTransition_procedure o cas .payment
      (fun r => r.driver) (fun _ => Status.driving) "driver"
    exact ⟨by simpa [cmdEmptyIDs] using h.1, fun _ => h.2.1, h.2.2⟩
  | pay =>
    have h := generalTransition_procedure o cas .complete
      (fun r => r.driver) (fun r => r.status) "system"
    exact ⟨by simpa [cmdEmptyIDs] using h.1, fun _ => h.2.1, h.2.2⟩
  | cancel actorType =>
    have h := generalTransition_procedure o cas .cancelled
      (fun r => r.driver) (fun r => r.status) actorType
    exact ⟨by simpa [cmdEmptyIDs] using h.1, fun _ => h.2.1, h.2.2⟩
  | matchCmd d =>
    have h := generalTransition_procedure o cas .approaching
      (fun _ => some d) (fun _ => Status.waiting) "system"
    exact ⟨by simpa [cmdEmptyIDs] using h.1, fun _ => h.2.1, h.2.2⟩
  | claimScheduledCmd oid d =>
    by_cases hempty : oid = "" ∨ d = ""
    · refine ⟨by simp [runCommand, hempty, cmdEmptyIDs], ?_, ?_⟩
      · intro hfalse
        rw [show cmdEmptyIDs (.claimScheduledCmd oid d) = true by simp [cmdEmptyIDs, hempty]]
          at hfalse
        cases hfalse
      · simp [runCommand, hempty, mutationCount]
    · refine ⟨?_, fun _ => ⟨?_, ?_⟩, ?_⟩
      · cases o with
        | none => simp [runCommand, hempty, cmdEmptyIDs]
        | some r =>
          by_cases hst : r.status = Status.scheduled
          · cases cas <;> simp [runCommand, hempty, hst, cmdEmptyIDs]
          · simp [runCommand, hempty, hst, cmdEmptyIDs]
      · intro ho
        subst ho
        simp [runCommand, hempty]
      · intro r hr
        subst hr
        by_cases hst : r.status = Status.scheduled
        · have hct : CanTransition r.status (targetStatus (.claimScheduledCmd oid d)) = true :=
            (canTransition_to_assigned r.status).mpr hst
          refine ⟨?_, ?_, ?_⟩
          · intro hcf
            rw [hct] at hcf
            cases hcf
          · intro _ hcas
            subst hcas
            simp [runCommand, hempty, hst, mutationCount, eventCount, StoreCall.isMutation]
          · intro _ hcas
            subst hcas
            simp [runCommand, hempty, hst, mutationCount, eventCount, StoreCall.isMutation]
        · have hct : CanTransition r.status (targetStatus (.claimScheduledCmd oid d)) = false := by
            rcases h : CanTransition r.status Status.assigned with _ | _
            · exact h
            · exact absurd ((canTransition_to_assigned r.status).mp h) hst
          refine ⟨fun _ => by simp [runCommand, hempty, hst], ?_, ?_⟩ <;>
            intro hc <;> rw [hct] at hc <;> cases hc
      · cases o with
        | none => simp [runCommand, hempty, mutationCount]
        | some r =>
          by_cases hst : r.status = Status.scheduled
          · cases cas <;>
              simp [runCommand, hempty, hst, mutationCount, eventCount, StoreCall.isMutation]
          · simp [runCommand, hempty, hst, mutationCount]
  | cancelScheduledByDriver oid d =>
    by_cases hempty : oid = "" ∨ d = ""
    · refine ⟨by simp [runCommand, hempty, cmdEmptyIDs], ?_, ?_⟩
      · intro hfalse
        rw [show cmdEmptyIDs (.cancelScheduledByDriver oid d) = true by simp [cmdEmptyIDs, hempty]]
          at hfalse
        cases hfalse
      · simp [runCommand, hempty, mutationCount]
    · refine ⟨?_, fun _ => ⟨?_, ?_⟩, ?_⟩
      · cases o with
        | none => simp [runCommand, hempty, cmdEmptyIDs]
        | some r =>
          by_cases hst : r.status = Status.assigned
          · cases cas <;> simp [runCommand, hempty, hst, cmdEmptyIDs]
          · simp [runCommand, hempty, hst, cmdEmptyIDs]
      · intro ho
        subst ho
        simp [runCommand, hempty]
      · intro r hr
        subst hr
        by_cases hst : r.status = Status.assigned
        · have hct : CanTransition r.status (targetStatus (.cancelScheduledByDriver oid d)) = true :=
            (canTransition_to_scheduled r.status).mpr hst
          refine ⟨?_, ?_, ?_⟩
          · intro hcf
            rw [hct] at hcf
            cases hcf
          · intro _ hcas
            subst hcas
            simp [runCommand, hempty, hst, mutationCount, eventCount, StoreCall.isMutation]
          · intro _ hcas
            subst hcas
            simp [runCommand, hempty, hst, mutationCount, eventCount, StoreCall.isMutation]
        · have hct : CanTransition r.status (targetStatus (.cancelScheduledByDriver oid d)) = false := by
            rcases h : CanTransition r.status Status.scheduled with _ | _
            · exact h
            · exact absurd ((canTransition_to_scheduled r.status).mp h) hst
          refine ⟨fun _ => by simp [runCommand, hempty, hst], ?_, ?_⟩ <;>
            intro hc <;> rw [hct] at hc <;> cases hc
      · cases o with
        | none => simp [runCommand, hempty, mutationCount]
        | some r =>
          by_cases hst : r.status = Status.assigned
          · cases cas <;>
              simp [runCommand, hempty, hst, mutationCount, eventCount, StoreCall.isMutation]
          · simp [runCommand, hempty, hst, mutationCount]

/-- C3 counterexample: `ClaimScheduled` with an empty order ID against a
store holding no such order returns `BadRequest`, not `NotFound`, so the
claim's "returns NotFound when no order with the given ID exists" fails as
stated. -/
theorem command_procedure_counterexample :
    (runCommand (.claimScheduledCmd "" "d1") Option.none true).result = CmdResult.badRequest
    ∧ (runCommand (.claimScheduledCmd "" "d1") Option.none true).result ≠ CmdResult.notFound := by
  decide

/-- C3 witness: `Accept "d1"` on a fresh waiting order with an applying
store takes the success branch — one applied update, one event append. -/
theorem command_procedure_witness :
    cmdEmptyIDs (.accept "d1") = false
    ∧ (runCommand (.accept "d1") (some freshWaitingRow) true).result = CmdResult.success
    ∧ mutationCount (runCommand (.accept "d1") (some freshWaitingRow) true).calls = 1
    ∧ eventCount (runCommand (.accept "d1") (some freshWaitingRow) true).calls = 1 := by
  refine ⟨by decide, ?_⟩
  have h := (command_general_procedure (.accept "d1") (some freshWaitingRow) true).2.1 (by decide)
  exact (h.2 freshWaitingRow rfl).2.2 (by decide) rfl

end Ark

namespace Ark

/-- `approaching` is reachable in one step exactly from `waiting` (Accept /
Match on an instant order) or `assigned` (departing on a scheduled order). -/
theorem canTransition_to_approaching (st : Status) :
    CanTransition st .approaching = true ↔ (st = .waiting ∨ st = .assigned) := by
  cases st <;> decide

/-- `arrived` is reachable in one step exactly from `approaching`. -/
theorem canTransition_to_arrived (st : Status) :
    CanTransition st .arrived = true ↔ st = .approaching := by
  cases st <;> decide

/-- `driving` is reachable in one step exactly from `arrived`. -/
theorem canTransition_to_driving (st : Status) :
    CanTransition st .driving = true ↔ st = .arrived := by
  cases st <;> decide

/-- `payment` is reachable in one step exactly from `driving`. -/
theorem canTransition_to_payment (st : Status) :
    CanTransition st .payment = true ↔ st = .driving := by
  cases st <;> decide

/-- `complete` is reachable in one step exactly from `payment`. -/
theorem canTransition_to_complete (st : Status) :
    CanTransition st .complete = true ↔ st = .payment := by
  cases st <;> decide

/-- `denied` is reachable from no status at all in the code's table. -/
theorem canTransition_to_denied (st : Status) :
    CanTransition st .denied = false := by
  cases st <;> rfl

/-- Every operation on one order preserves the (amended) driver invariant. -/
theorem runSeq_preserves_driverInv (c : SeqCmd) (s : OrderSt)
    (h : DriverInv s.row) : DriverInv (runSeq c s).2.row := by
  cases c with
  | accept d =>
    by_cases h1 : CanTransition s.row.status .approaching = true
    · simp [runSeq, h1, casUpdateStatus, DriverInv]
    · simp only [runSeq, h1, Bool.false_eq_true, if_false]
      exact h
  | deny d =>
    have h1 := canTransition_to_denied s.row.status
    simp only [runSeq, h1, Bool.false_eq_true, if_false]
    exact h
  | arrive =>
    by_cases h1 : CanTransition s.row.status .arrived = true
    · have hst := (canTransition_to_arrived s.row.status).mp h1
      have hd := h.1 (Or.inr (Or.inl hst))
      cases hdr : s.row.driver with
      | none => exact absurd hdr hd
      | some v => simp [runSeq, h1, casUpdateStatus, DriverInv, hdr]
    · simp only [runSeq, h1, Bool.false_eq_true, if_false]
      exact h
  | meet =>
    by_cases h1 : CanTransition s.row.status .driving = true
    · have hst := (canTransition_to_driving s.row.status).mp h1
      have hd := h.1 (Or.inr (Or.inr (Or.inl hst)))
      cases hdr : s.row.driver with
      | none => exact absurd hdr hd
      | some v => simp [runSeq, h1, casUpdateStatus, DriverInv, hdr]
    · simp only [runSeq, h1, Bool.false_eq_true, if_false]
      exact h
  | complete =>
    by_cases h1 : CanTransition s.row.status .payment = true
    · have hst := (canTransition_to_payment s.row.status).mp h1
      have hd := h.1 (Or.inr (Or.inr (Or.inr (Or.inl hst))))
      cases hdr : s.row.driver with
      | none => exact absurd hdr hd
      | some v => simp [runSeq, h1, casUpdateStatus, DriverInv, hdr]
    · simp only [runSeq, h1, Bool.false_eq_true, if_false]
      exact h
  | pay =>
    by_cases h1 : CanTransition s.row.status .complete = true
    · have hst := (canTransition_to_complete s.row.status).mp h1
      have hd := h.1 (Or.inr (Or.inr (Or.inr (Or.inr (Or.inl hst)))))
      cases hdr : s.row.driver with
      | none => exact absurd hdr hd
      | some v => simp [runSeq, h1, casUpdateStatus, DriverInv, hdr]
    · simp only [runSeq, h1, Bool.false_eq_true, if_false]
      exact h
  | cancel actorType =>
    by_cases h1 : CanTransition s.row.status .cancelled = true
    · simp [runSeq, h1, casUpdateStatus, DriverInv]
    · simp only [runSeq, h1, Bool.false_eq_true, if_false]
      exact h
  | matchCmd d =>
    by_cases h1 : CanTransition s.row.status .approaching = true
    · simp [runSeq, h1, casUpdateStatus, DriverInv]
    · simp only [runSeq, h1, Bool.false_eq_true, if_false]
      exact h
  | claimScheduled d =>
    by_cases hd : d = ""
    · simp only [runSeq, hd, if_true]
      exact h
    · by_cases hst : s.row.status = Status.scheduled
      · simp [runSeq, hd, hst, casClaimScheduled, DriverInv]
      · simp only [runSeq, if_neg hd, if_neg hst]
        exact h
  | cancelScheduledByDriver d =>
    by_cases hd : d = ""
    · simp only [runSeq, hd, if_true]
      exact h
    · by_cases hst : s.row.status = Status.assigned
      · simp [runSeq, hd, hst, casReopenScheduled, DriverInv]
      · simp only [runSeq, if_neg hd, if_neg hst]
        exact h
  | expireOverdue overdue =>
    by_cases hc : s.row.status = Status.scheduled ∧ overdue = true
    · have hdn := h.2 (Or.inl hc.1)
      simp [runSeq, hc, DriverInv, hdn]
    · simp only [runSeq, if_neg hc]
      exact h

/-- C6 (amended): in every reachable order state, `driver_id` is non-null in
{assigned, approaching, arrived, driving, payment, complete} and null in
{scheduled, waiting, expired}; an order in `cancelled` keeps the driver it
had when cancelled (possibly non-null), because `UpdateStatus` writes
`driver_id = COALESCE($2, driver_id)` and `Cancel` passes the loaded
driver. -/
theorem reachable_driver_invariant (s : OrderSt) (h : Reachable s) :
    DriverInv s.row := by
  induction h with
  | instant => exact ⟨by decide, by decide⟩
  | scheduledInit => exact ⟨by decide, by decide⟩
  | step c hs ih => exact runSeq_preserves_driverInv c _ ih

/-- C6 counterexample: the reachable state create → `Accept "d1"` →
`Cancel` (passenger) is `cancelled` with `driver_id = "d1"` still set, so
"`driver_id` non-null iff status ∈ {assigned, …, complete}" is false on the
code. -/
theorem driver_nonnull_iff_counterexample :
    ¬ (∀ s, Reachable s → specDriverNonNullIff s.row) := by
  intro h
  have hreach : Reachable (runSeq (.cancel "passenger")
      (runSeq (.accept "d1") initInstantOrder).2).2 :=
    Reachable.step (.cancel "passenger") (Reachable.step (.accept "d1") Reachable.instant)
  have hiff := h _ hreach
  exact absurd (hiff.mp (by decide)) (by decide)

/-- C6 witness: the amended invariant, evaluated on the concrete reachable
state reached by `Accept "d7"` from a fresh instant order. -/
theorem reachable_driver_invariant_witness :
    DriverInv (runSeq (.accept "d7") initInstantOrder).2.row :=
  reachable_driver_invariant _ (Reachable.step (.accept "d7") Reachable.instant)

end Ark

namespace Ark

/-- C10 (amended): every operation only ever appends to the event log
(existing events are never mutated or deleted); a successful service command
appends exactly the one event the Go code passes to `AppendEvent`; the
expiry sweep `ExpireOverdueScheduled` appends nothing, even when it mutates
the row; and a failed command changes nothing. -/
theorem event_log_append_only (c : SeqCmd) (s : OrderSt) :
    (∃ t, (runSeq c s).2.events = s.events ++ t)
    ∧ ((runSeq c s).1 = CmdResult.success → (∀ ov, c ≠ .expireOverdue ov) →
        (runSeq c s).2.events = s.events ++ [nominalEvent c s.row])
    ∧ (∀ ov, c = .expireOverdue ov → (runSeq c s).2.events = s.events)
    ∧ ((runSeq c s).1 ≠ CmdResult.success → (runSeq c s).2 = s) := by
  cases c <;>
    simp only [runSeq, nominalEvent] <;>
    split_ifs <;>
    simp_all

end Ark

namespace Ark

/-- C10 counterexample: the expiry sweep on a fresh overdue scheduled order
reports success and mutates the row to `expired`, yet appends no event —
so "every successful status mutation appends exactly one order event" fails
as stated for the background scheduler's expiry mutation. -/
theorem expire_appends_no_event_counterexample :
    (runSeq (.expireOverdue true) initScheduledOrder).1 = CmdResult.success
    ∧ (runSeq (.expireOverdue true) initScheduledOrder).2.row.status = Status.expired
    ∧ (runSeq (.expireOverdue true) initScheduledOrder).2.row ≠ initScheduledOrder.row
    ∧ (runSeq (.expireOverdue true) initScheduledOrder).2.events = initScheduledOrder.events := by
  decide

/-- C10 witness: a successful `Accept` appends exactly its one event. -/
theorem event_log_append_only_witness :
    (runSeq (.accept "d1") initInstantOrder).2.events
      = initInstantOrder.events ++ [nominalEvent (.accept "d1") initInstantOrder.row] :=
  (event_log_append_only (.accept "d1") initInstantOrder).2.1 (by decide) (by decide)

end Ark

namespace Ark

/-- Moving the head into position `m` of a list (and the element at `m` to
the head) is a permutation. -/
theorem cons_set_perm : ∀ (t : List String) (m : Nat) (x : String), m < t.length →
    List.Perm (x :: t) (t.getD m "" :: t.set m x) := by
  intro t
  induction t with
  | nil => intro m x h; exact absurd h (Nat.not_lt_zero m)
  | cons a s ih =>
    intro m x h
    cases m with
    | zero =>
      simp only [List.getD_cons_zero, List.set_cons_zero]
      exact List.Perm.swap a x s
    | succ k =>
      have hk : k < s.length := by simpa using h
      have h1 : List.Perm (x :: a :: s) (a :: x :: s) := List.Perm.swap a x s
      have h2 : List.Perm (a :: x :: s) (a :: (s.getD k "" :: s.set k x)) :=
        (ih k x hk).cons a
      have h3 : List.Perm (a :: s.getD k "" :: s.set k x) (s.getD k "" :: a :: s.set k x) :=
        List.Perm.swap (s.getD k "") a (s.set k x)
      simp only [List.getD_cons_succ, List.set_cons_succ]
      exact (h1.trans h2).trans h3

/-- An in-bounds `listSwap` is a permutation. -/
theorem listSwap_perm : ∀ (l : List String) (i j : Nat), i < l.length → j < l.length →
    List.Perm (listSwap l i j) l := by
  intro l
  induction l with
  | nil => intro i j hi _; exact absurd hi (Nat.not_lt_zero i)
  | cons a t ih =>
    intro i j hi hj
    cases i with
    | zero =>
      cases j with
      | zero =>
        have he : listSwap (a :: t) 0 0 = a :: t := by simp [listSwap]
        rw [he]
      | succ k =>
        have hk : k < t.length := by simpa using hj
        have he : listSwap (a :: t) 0 (k + 1) = t.getD k "" :: t.set k a := by
          simp [listSwap]
        rw [he]
        exact (cons_set_perm t k a hk).symm
    | succ m =>
      have hm : m < t.length := by simpa using hi
      cases j with
      | zero =>
        have he : listSwap (a :: t) (m + 1) 0 = t.getD m "" :: t.set m a := by
          simp [listSwap]
        rw [he]
        exact (cons_set_perm t m a hm).symm
      | succ k =>
        have hk : k < t.length := by simpa using hj
        have he : listSwap (a :: t) (m + 1) (k + 1) = a :: listSwap t m k := by
          simp [listSwap]
        rw [he]
        exact (ih m k hm hk).cons a

/-- The Fisher-Yates loop permutes its input when started in bounds. -/
theorem fyLoop_perm (rnd : Nat → Nat) : ∀ (k : Nat) (cp : List String), k < cp.length →
    List.Perm (fyLoop rnd k cp) cp := by
  intro k
  induction k with
  | zero => intro cp _; exact List.Perm.refl cp
  | succ i ih =>
    intro cp hk
    have hj : (rnd (i + 1) % (i + 2)) < cp.length := by
      have : rnd (i + 1) % (i + 2) < i + 2 := Nat.mod_lt _ (by omega)
      omega
    have hswap := listSwap_perm cp (i + 1) (rnd (i + 1) % (i + 2)) hk hj
    have hlen : (listSwap cp (i + 1) (rnd (i + 1) % (i + 2))).length = cp.length := by
      simp [listSwap]
    have hrec : List.Perm (fyLoop rnd (i + 1) cp)
        (listSwap cp (i + 1) (rnd (i + 1) % (i + 2))) := by
      rw [show fyLoop rnd (i + 1) cp
          = fyLoop rnd i (listSwap cp (i + 1) (rnd (i + 1) % (i + 2))) from rfl]
      exact ih _ (by omega)
    exact hrec.trans hswap

/-- C7: for every pool of distinct driver IDs, every randomness source and
every integer n, `PickRandomDrivers` leaves the input pool unmodified,
returns empty for n ≤ 0 or an empty pool, returns a permutation of the whole
pool (each element exactly once) for n ≥ len(pool), and returns exactly n
distinct elements all drawn from the pool for 0 < n < len(pool). -/
theorem pickRandomDrivers_spec (rnd : Nat → Nat) (pool : List String) (n : Int)
    (hnd : pool.Nodup) :
    (pickRandomDrivers rnd pool n).2 = pool
    ∧ ((n ≤ 0 ∨ pool = []) → (pickRandomDrivers rnd pool n).1 = [])
    ∧ ((pool.length : Int) ≤ n → List.Perm (pickRandomDrivers rnd pool n).1 pool)
    ∧ (0 < n → n < (pool.length : Int) →
        (pickRandomDrivers rnd pool n).1.length = n.toNat
        ∧ (pickRandomDrivers rnd pool n).1.Nodup
        ∧ ∀ x ∈ (pickRandomDrivers rnd pool n).1, x ∈ pool) := by
  by_cases hng : n ≤ 0 ∨ pool.length = 0
  · refine ⟨?_, fun _ => ?_, ?_, ?_⟩
    · simp only [pickRandomDrivers, if_pos hng]
    · simp only [pickRandomDrivers, if_pos hng]
    · intro hlen
      have hpool : pool = [] := by
        rcases hng with hg | hg
        · have h0 : (pool.length : Int) ≤ 0 := le_trans hlen hg
          exact List.length_eq_zero.mp (by omega)
        · exact List.length_eq_zero.mp hg
      subst hpool
      simp only [pickRandomDrivers, if_pos hng]
      exact List.Perm.refl []
    · intro hpos hlt
      rcases hng with hg | hg
      · omega
      · have h0 : (pool.length : Int) = 0 := by exact_mod_cast hg
        omega
  · have hguard := hng
    push_neg at hguard
    have hpos : 0 < pool.length := Nat.pos_of_ne_zero hguard.2
    have hperm : List.Perm (fyLoop rnd (pool.length - 1) pool) pool :=
      fyLoop_perm rnd (pool.length - 1) pool (by omega)
    have hlen : (fyLoop rnd (pool.length - 1) pool).length = pool.length :=
      hperm.length_eq
    refine ⟨?_, ?_, ?_, ?_⟩
    · by_cases htake : n > ((fyLoop rnd (pool.length - 1) pool).length : Int)
      · simp only [pickRandomDrivers, if_neg hng, if_pos htake]
      · simp only [pickRandomDrivers, if_neg hng, if_neg htake]
    · intro hg
      rcases hg with hg | hg
      · exact absurd hg (by omega)
      · subst hg
        simp at hpos
    · intro hge
      by_cases htake : n > ((fyLoop rnd (pool.length - 1) pool).length : Int)
      · simp only [pickRandomDrivers, if_neg hng, if_pos htake]
        exact hperm
      · have he : (pickRandomDrivers rnd pool n).1
            = (fyLoop rnd (pool.length - 1) pool).take n.toNat := by
          simp only [pickRandomDrivers, if_neg hng, if_neg htake]
        have hle : (fyLoop rnd (pool.length - 1) pool).length ≤ n.toNat := by
          rw [hlen]
          omega
        rw [he, List.take_of_length_le hle]
        exact hperm
    · intro hn0 hnlen
      have htake : ¬ n > ((fyLoop rnd (pool.length - 1) pool).length : Int) := by
        rw [hlen]
        omega
      have he : (pickRandomDrivers rnd pool n).1
          = (fyLoop rnd (pool.length - 1) pool).take n.toNat := by
        simp only [pickRandomDrivers, if_neg hng, if_neg htake]
      have hcpnd : (fyLoop rnd (pool.length - 1) pool).Nodup :=
        hperm.symm.nodup hnd
      refine ⟨?_, ?_, ?_⟩
      · rw [he, List.length_take, hlen]
        omega
      · rw [he]
        exact hcpnd.sublist (List.take_sublist _ _)
      · intro x hx
        rw [he] at hx
        exact hperm.subset (List.take_subset _ _ hx)

/-- C7 witness: concrete pool of three distinct IDs, n = 2, one concrete
randomness source. -/
theorem pickRandomDrivers_spec_witness :
    (pickRandomDrivers (fun _ => 0) ["a", "b", "c"] 2).2 = ["a", "b", "c"]
    ∧ (pickRandomDrivers (fun _ => 0) ["a", "b", "c"] 2).1.length = 2
    ∧ (pickRandomDrivers (fun _ => 0) ["a", "b", "c"] 2).1.Nodup
    ∧ ∀ x ∈ (pickRandomDrivers (fun _ => 0) ["a", "b", "c"] 2).1, x ∈ ["a", "b", "c"] := by
  have h := pickRandomDrivers_spec (fun _ => 0) ["a", "b", "c"] 2 (by decide)
  have h4 := h.2.2.2 (by decide) (by decide)
  exact ⟨h.1, h4.1, h4.2.1, h4.2.2⟩

end Ark

namespace Ark

/-- `dispatchInitial` never touches the broadcast latch. -/
theorem dispatchInitialStep_broadcast (st : DispatchRecord) (nearby : List String)
    (rnd : Nat → Nat) (now : Int) :
    (dispatchInitialStep st nearby rnd now).broadcast = st.broadcast := by
  unfold dispatchInitialStep
  split_ifs <;> rfl

/-- With a non-empty nearby pool, `dispatchInitial` records the dispatch
timestamp. -/
theorem dispatchInitialStep_dispatchedAt (st : DispatchRecord) (nearby : List String)
    (rnd : Nat → Nat) (now : Int) (h : nearby.length ≠ 0) :
    (dispatchInitialStep st nearby rnd now).dispatchedAt = some now := by
  unfold dispatchInitialStep
  rw [if_neg h]
  rfl

/-- `dispatchInitial` never clears the dispatch timestamp. -/
theorem dispatchInitialStep_isSome (st : DispatchRecord) (nearby : List String)
    (rnd : Nat → Nat) (now : Int) (h : st.dispatchedAt.isSome = true) :
    (dispatchInitialStep st nearby rnd now).dispatchedAt.isSome = true := by
  unfold dispatchInitialStep
  split_ifs
  · exact h
  · rfl

/-- The action component of a tick is the decision of
`processScheduledOrder`. -/
theorem tick_action_eq_process (st : DispatchRecord) (inp : TickInput) :
    (tick st inp).1 = processScheduledOrder st inp.scheduledAt inp.now := by
  cases hq : processScheduledOrder st inp.scheduledAt inp.now <;> simp [tick, hq]

/-- The broadcast latch is one-way across ticks. -/
theorem tick_broadcast_mono (st : DispatchRecord) (inp : TickInput)
    (h : st.broadcast = true) : (tick st inp).2.broadcast = true := by
  cases hp : processScheduledOrder st inp.scheduledAt inp.now <;>
    simp only [tick, hp]
  · rw [dispatchInitialStep_broadcast]
    exact h
  · rfl
  · rfl
  · exact h

/-- The dispatch timestamp stays present across ticks. -/
theorem tick_dispatched_mono (st : DispatchRecord) (inp : TickInput)
    (h : st.dispatchedAt.isSome = true) : (tick st inp).2.dispatchedAt.isSome = true := by
  cases hp : processScheduledOrder st inp.scheduledAt inp.now <;>
    simp only [tick, hp]
  · exact dispatchInitialStep_isSome _ _ _ _ h
  · exact h
  · exact h
  · exact h

/-- The decision is Tier 1 exactly when no dispatch timestamp exists. -/
theorem process_dispatchInitial_iff (st : DispatchRecord) (sched : Option Int) (now : Int) :
    processScheduledOrder st sched now = .dispatchInitial ↔ st.dispatchedAt = Option.none := by
  cases hd : st.dispatchedAt with
  | none => simp [processScheduledOrder, hd]
  | some dAt =>
    cases sched with
    | none =>
      simp only [processScheduledOrder, hd]
      split_ifs <;> simp
    | some sAt =>
      simp only [processScheduledOrder, hd]
      split_ifs <;> simp

/-- A dispatched order whose broadcast latch is set triggers nothing. -/
theorem process_blocked_when_broadcast (st : DispatchRecord) (sched : Option Int)
    (now : Int) (hd : st.dispatchedAt.isSome = true) (hb : st.broadcast = true) :
    processScheduledOrder st sched now = .noAction := by
  cases hdi : st.dispatchedAt with
  | none =>
    rw [hdi] at hd
    simp at hd
  | some dAt => simp [processScheduledOrder, hdi, hb]

/-- Tier 2 and Tier 3 decisions require the broadcast latch to be clear. -/
theorem process_broadcastish_requires (st : DispatchRecord) (sched : Option Int) (now : Int)
    (h : processScheduledOrder st sched now = .broadcastWider
      ∨ processScheduledOrder st sched now = .markBroadcast) :
    st.broadcast = false := by
  cases hdi : st.dispatchedAt with
  | none => rcases h with h | h <;> simp [processScheduledOrder, hdi] at h
  | some dAt =>
    cases hbv : st.broadcast with
    | false => rfl
    | true => rcases h with h | h <;> simp [processScheduledOrder, hdi, hbv] at h

/-- A tick whose action is Tier 2 or Tier 3 sets the broadcast latch. -/
theorem tick_broadcastish_sets (st : DispatchRecord) (inp : TickInput)
    (h : (tick st inp).1 = .broadcastWider ∨ (tick st inp).1 = .markBroadcast) :
    (tick st inp).2.broadcast = true := by
  rw [tick_action_eq_process] at h
  rcases h with h | h <;> simp [tick, h, markOrderBroadcast]

/-- Once the broadcast latch is set, no later tick counts as Tier 2 or
Tier 3. -/
theorem countTicks_broadcastish_zero (p : TickAction → TickInput → Bool)
    (hp : ∀ a inp, p a inp = true → (a = .broadcastWider ∨ a = .markBroadcast)) :
    ∀ (inps : List TickInput) (st : DispatchRecord), st.broadcast = true →
      countTicks p st inps = 0 := by
  intro inps
  induction inps with
  | nil => intro st _; rfl
  | cons inp rest ih =>
    intro st hb
    have hpa : p (tick st inp).1 inp = false := by
      cases hfire : p (tick st inp).1 inp
      · rfl
      · have hbw := hp _ _ hfire
        rw [tick_action_eq_process] at hbw
        have hf := process_broadcastish_requires st _ _ hbw
        rw [hb] at hf
        cases hf
    simp only [countTicks, hpa, Bool.false_eq_true, if_false, Nat.zero_add]
    exact ih _ (tick_broadcast_mono st inp hb)

/-- At most one tick of a run performs a given broadcast-latch action. -/
theorem countTicks_broadcastish_le_one (p : TickAction → TickInput → Bool)
    (hp : ∀ a inp, p a inp = true → (a = .broadcastWider ∨ a = .markBroadcast)) :
    ∀ (inps : List TickInput) (st : DispatchRecord), countTicks p st inps ≤ 1 := by
  intro inps
  induction inps with
  | nil => intro st; exact Nat.zero_le 1
  | cons inp rest ih =>
    intro st
    cases hfire : p (tick st inp).1 inp
    · simp only [countTicks, hfire, Bool.false_eq_true, if_false, Nat.zero_add]
      exact ih _
    · have h2 : (tick st inp).2.broadcast = true :=
        tick_broadcastish_sets st inp (hp _ _ hfire)
      have h0 := countTicks_broadcastish_zero p hp rest _ h2
      simp [countTicks, hfire, h0]

/-- Once the dispatch timestamp exists, no later tick is an effective
Tier 1 dispatch. -/
theorem countTicks_tier1_zero :
    ∀ (inps : List TickInput) (st : DispatchRecord), st.dispatchedAt.isSome = true →
      countTicks isTier1Fire st inps = 0 := by
  intro inps
  induction inps with
  | nil => intro st _; rfl
  | cons inp rest ih =>
    intro st hd
    have hpa : isTier1Fire (tick st inp).1 inp = false := by
      cases hfire : isTier1Fire (tick st inp).1 inp
      · rfl
      · have hact : (tick st inp).1 = .dispatchInitial := by
          have h' := hfire
          simp [isTier1Fire] at h'
          exact h'.1
        rw [tick_action_eq_process] at hact
        have hnone := (process_dispatchInitial_iff st inp.scheduledAt inp.now).mp hact
        rw [hnone] at hd
        simp at hd
    simp only [countTicks, hpa, Bool.false_eq_true, if_false, Nat.zero_add]
    exact ih _ (tick_dispatched_mono st inp hd)

/-- At most one tick of a run performs an effective Tier 1 dispatch. -/
theorem countTicks_tier1_le_one :
    ∀ (inps : List TickInput) (st : DispatchRecord), countTicks isTier1Fire st inps ≤ 1 := by
  intro inps
  induction inps with
  | nil => intro st; exact Nat.zero_le 1
  | cons inp rest ih =>
    intro st
    cases hfire : isTier1Fire (tick st inp).1 inp
    · simp only [countTicks, hfire, Bool.false_eq_true, if_false, Nat.zero_add]
      exact ih _
    · have hparts : (tick st inp).1 = TickAction.dispatchInitial ∧ ¬ inp.nearby = [] := by
        have h' := hfire
        simp [isTier1Fire] at h'
        exact h'
      have hne : inp.nearby.length ≠ 0 := by
        intro hlen
        exact hparts.2 (List.length_eq_zero.mp hlen)
      have hd2 : (tick st inp).2.dispatchedAt.isSome = true := by
        have hact := hparts.1
        rw [tick_action_eq_process] at hact
        have hstep : (tick st inp).2 = dispatchInitialStep st inp.nearby inp.rnd inp.now := by
          simp [tick, hact]
        rw [hstep, dispatchInitialStep_dispatchedAt _ _ _ _ hne]
        rfl
      have h0 := countTicks_tier1_zero rest _ hd2
      simp [countTicks, hfire, h0]

/-- C5: the per-tick decision tree of `processScheduledOrder` is exactly the
claimed one — Tier 1 alone on an undisached order (whatever the pickup
time), Tier 3 (wider broadcast + latch) when undispatched…broadcast is clear
and pickup is within 24h, Tier 2 (latch only) when 30s have elapsed,
nothing once the latch is set — and over any run from a fresh order each
tier fires at most once. -/
theorem scheduled_dispatch_tiering :
    (∀ (st : DispatchRecord) (inp : TickInput),
      (st.dispatchedAt = Option.none → (tick st inp).1 = .dispatchInitial)
      ∧ (∀ dAt, st.dispatchedAt = some dAt → st.broadcast = false →
          ((∀ sAt, inp.scheduledAt = some sAt → sAt - inp.now ≤ oneDayBefore →
              (tick st inp).1 = .broadcastWider ∧ (tick st inp).2.broadcast = true)
           ∧ (¬(∃ sAt, inp.scheduledAt = some sAt ∧ sAt - inp.now ≤ oneDayBefore) →
              inp.now - dAt ≥ broadcastDelay →
              (tick st inp).1 = .markBroadcast ∧ (tick st inp).2 = markOrderBroadcast st)
           ∧ (¬(∃ sAt, inp.scheduledAt = some sAt ∧ sAt - inp.now ≤ oneDayBefore) →
              inp.now - dAt < broadcastDelay →
              (tick st inp).1 = .noAction ∧ (tick st inp).2 = st)))
      ∧ (st.dispatchedAt.isSome = true → st.broadcast = true →
          (tick st inp).1 = .noAction ∧ (tick st inp).2 = st))
    ∧ (∀ (inps : List TickInput),
        countTicks isTier1Fire initDispatchRecord inps ≤ 1
        ∧ countTicks isTier3 initDispatchRecord inps ≤ 1
        ∧ countTicks isTier2 initDispatchRecord inps ≤ 1) := by
  constructor
  · intro st inp
    refine ⟨?_, ?_, ?_⟩
    · intro hnone
      rw [tick_action_eq_process]
      exact (process_dispatchInitial_iff st inp.scheduledAt inp.now).mpr hnone
    · intro dAt hd hb
      refine ⟨?_, ?_, ?_⟩
      · intro sAt hs h24
        have hproc : processScheduledOrder st inp.scheduledAt inp.now = .broadcastWider := by
          simp [processScheduledOrder, hd, hb, hs, h24]
        refine ⟨by rw [tick_action_eq_process]; exact hproc, ?_⟩
        exact tick_broadcastish_sets st inp
          (Or.inl (by rw [tick_action_eq_process]; exact hproc))
      · intro hnot24 h30
        have hproc : processScheduledOrder st inp.scheduledAt inp.now = .markBroadcast := by
          cases hsch : inp.scheduledAt with
          | none => simp [processScheduledOrder, hd, hb, hsch, h30]
          | some sAt =>
            have hgt : ¬ sAt - inp.now ≤ oneDayBefore := fun hle => hnot24 ⟨sAt, hsch, hle⟩
            simp [processScheduledOrder, hd, hb, hsch, hgt, h30]
        exact ⟨by rw [tick_action_eq_process]; exact hproc, by simp [tick, hproc]⟩
      · intro hnot24 h30lt
        have h30 : ¬ inp.now - dAt ≥ broadcastDelay := by omega
        have hproc : processScheduledOrder st inp.scheduledAt inp.now = .noAction := by
          cases hsch : inp.scheduledAt with
          | none => simp [processScheduledOrder, hd, hb, hsch, h30]
          | some sAt =>
            have hgt : ¬ sAt - inp.now ≤ oneDayBefore := fun hle => hnot24 ⟨sAt, hsch, hle⟩
            simp [processScheduledOrder, hd, hb, hsch, hgt, h30]
        exact ⟨by rw [tick_action_eq_process]; exact hproc, by simp [tick, hproc]⟩
    · intro hd hb
      have hproc := process_blocked_when_broadcast st inp.scheduledAt inp.now hd hb
      exact ⟨by rw [tick_action_eq_process]; exact hproc, by simp [tick, hproc]⟩
  · intro inps
    refine ⟨countTicks_tier1_le_one inps _, ?_, ?_⟩
    · exact countTicks_broadcastish_le_one isTier3
        (fun a inp h => Or.inl (by simpa [isTier3] using h)) inps _
    · exact countTicks_broadcastish_le_one isTier2
        (fun a inp h => Or.inr (by simpa [isTier2] using h)) inps _

/-- C5 witness: a fresh order is dispatched on the first tick that sees it,
and on a concrete two-tick run each tier fires at most once. -/
theorem scheduled_dispatch_tiering_witness :
    (tick initDispatchRecord ⟨some 100000, 0, ["dA"], fun _ => 0⟩).1 = TickAction.dispatchInitial
    ∧ countTicks isTier1Fire initDispatchRecord
        [⟨some 100000, 0, ["dA"], fun _ => 0⟩, ⟨some 100000, 40, ["dA"], fun _ => 0⟩] ≤ 1
    ∧ countTicks isTier3 initDispatchRecord
        [⟨some 100000, 0, ["dA"], fun _ => 0⟩, ⟨some 100000, 40, ["dA"], fun _ => 0⟩] ≤ 1
    ∧ countTicks isTier2 initDispatchRecord
        [⟨some 100000, 0, ["dA"], fun _ => 0⟩, ⟨some 100000, 40, ["dA"], fun _ => 0⟩] ≤ 1 := by
  refine ⟨(scheduled_dispatch_tiering.1 initDispatchRecord _).1 rfl, ?_, ?_, ?_⟩
  · exact (scheduled_dispatch_tiering.2 _).1
  · exact (scheduled_dispatch_tiering.2 _).2.1
  · exact (scheduled_dispatch_tiering.2 _).2.2

end Ark

namespace Ark

/-- C8 (failing input): `RecordDispatch` at t=10 followed by `RecordDispatch`
at t=50 — because the dispatch timestamp is written with a plain Redis `SET`,
the second call overwrites it and `GetDispatchedAt` returns 50, not the
original 10, although `GetDispatchedAt`'s own doc comment promises "when the
order was first dispatched" and the repo's Redis schema table documents the
key as the "timestamp of first dispatch". -/
theorem recordDispatch_second_call_overwrites :
    getDispatchedAt (recordDispatch initDispatchRecord 10 ["d1"]) = some 10
    ∧ getDispatchedAt (recordDispatch (recordDispatch initDispatchRecord 10 ["d1"]) 50 ["d2"])
        = some 50
    ∧ getDispatchedAt (recordDispatch (recordDispatch initDispatchRecord 10 ["d1"]) 50 ["d2"])
        ≠ some 10 := by
  decide

/-- C9 (amended): `CreateScheduled` returns `BadRequest` exactly when
`passenger_id` or `ride_type` is empty, `schedule_window_mins ≤ 0`, or
`scheduled_at` is earlier than now + 30 minutes; with valid input it returns
`ActiveOrder` when the passenger already holds an active order; otherwise it
persists the order in `scheduled` at version 0 with zero incentive bonus and
`cancel_deadline_at = scheduled_at − schedule_window_mins` minutes. -/
theorem createScheduled_spec (cmd : CreateScheduledCmd) (now : Int) (active : Bool)
    (est : Option Money) (id : String) :
    ((cmd.passengerID = "" ∨ cmd.rideType = "" ∨ cmd.scheduleWindowMins ≤ 0
        ∨ cmd.scheduledAt < now + 30 * 60) ↔
      createScheduled cmd now active est id = .error .badRequest)
    ∧ (¬(cmd.passengerID = "" ∨ cmd.rideType = "" ∨ cmd.scheduleWindowMins ≤ 0
        ∨ cmd.scheduledAt < now + 30 * 60) → active = true →
      createScheduled cmd now active est id = .error .activeOrder)
    ∧ (¬(cmd.passengerID = "" ∨ cmd.rideType = "" ∨ cmd.scheduleWindowMins ≤ 0
        ∨ cmd.scheduledAt < now + 30 * 60) → active = false →
      ∃ o, createScheduled cmd now active est id = .ok o
        ∧ o.status = .scheduled
        ∧ o.statusVersion = 0
        ∧ o.incentiveBonus = 0
        ∧ o.cancelDeadlineAt = cmd.scheduledAt - cmd.scheduleWindowMins * 60) := by
  by_cases hbig : cmd.passengerID = "" ∨ cmd.rideType = "" ∨ cmd.scheduleWindowMins ≤ 0
      ∨ cmd.scheduledAt < now + 30 * 60
  · have hbad : createScheduled cmd now active est id = .error .badRequest := by
      by_cases h1 : cmd.passengerID = "" ∨ cmd.rideType = ""
      · unfold createScheduled
        rw [if_pos h1]
      · by_cases hC : cmd.scheduleWindowMins ≤ 0
        · unfold createScheduled
          rw [if_neg h1, if_pos hC]
        · by_cases hD : cmd.scheduledAt < now + 30 * 60
          · unfold createScheduled
            rw [if_neg h1, if_neg hC, if_pos hD]
          · exfalso
            rcases hbig with h | h | h | h
            · exact h1 (Or.inl h)
            · exact h1 (Or.inr h)
            · exact hC h
            · exact hD h
    exact ⟨⟨fun _ => hbad, fun _ => hbig⟩,
      fun hc => absurd hbig hc, fun hc => absurd hbig hc⟩
  · have h1 : ¬(cmd.passengerID = "" ∨ cmd.rideType = "") := fun hor =>
      hor.elim (fun h => hbig (Or.inl h)) (fun h => hbig (Or.inr (Or.inl h)))
    have hC : ¬ cmd.scheduleWindowMins ≤ 0 := fun h => hbig (Or.inr (Or.inr (Or.inl h)))
    have hD : ¬ cmd.scheduledAt < now + 30 * 60 := fun h => hbig (Or.inr (Or.inr (Or.inr h)))
    refine ⟨⟨fun h => absurd h hbig, fun he => ?_⟩, fun _ ha => ?_, fun _ ha => ?_⟩
    · exfalso
      unfold createScheduled at he
      rw [if_neg h1, if_neg hC, if_neg hD] at he
      cases active <;> simp at he
    · unfold createScheduled
      rw [if_neg h1, if_neg hC, if_neg hD, ha]
      rfl
    · subst ha
      have hok : createScheduled cmd now false est id
          = .ok { id := id
                  passengerID := cmd.passengerID
                  status := .scheduled
                  statusVersion := 0
                  pickup := cmd.pickup
                  dropoff := cmd.dropoff
                  rideType := cmd.rideType
                  estimatedFee := est.getD { amount := 0, currency := "TWD" }
                  orderType := "scheduled"
                  scheduledAt := cmd.scheduledAt
                  scheduleWindowMins := cmd.scheduleWindowMins
                  cancelDeadlineAt := cmd.scheduledAt - cmd.scheduleWindowMins * 60
                  incentiveBonus := 0 } := by
        unfold createScheduled
        rw [if_neg h1, if_neg hC, if_neg hD]
        rfl
      exact ⟨_, hok, rfl, rfl, rfl, rfl⟩

/-- C9 counterexample: a structurally valid command (scheduled 2 hours out,
60-minute window, non-empty passenger and ride type) for a passenger who
already holds an active order is rejected with `ActiveOrder` and nothing is
persisted — not the `BadRequest`-or-persist dichotomy the claim states. -/
theorem createScheduled_counterexample :
    createScheduled
        { passengerID := "p1", pickup := ⟨0, 0⟩, dropoff := ⟨1, 1⟩,
          rideType := "sedan", scheduledAt := 7200, scheduleWindowMins := 60 }
        0 true Option.none "id1"
      = Except.error CmdResult.activeOrder
    ∧ ¬((7200 : Int) < 0 + 30 * 60)
    ∧ (0 : Int) < 60
    ∧ ("p1" : String) ≠ ""
    ∧ ("sedan" : String) ≠ "" :=
  ⟨rfl, by decide, by decide, by decide, by decide⟩

/-- C9 witness: a valid command for a passenger with no active order is
persisted as claimed. -/
theorem createScheduled_spec_witness :
    ∃ o, createScheduled
        { passengerID := "p2", pickup := ⟨0, 0⟩, dropoff := ⟨1, 1⟩,
          rideType := "van", scheduledAt := 7200, scheduleWindowMins := 60 }
        0 false Option.none "id2"
      = .ok o
      ∧ o.status = Status.scheduled
      ∧ o.statusVersion = 0
      ∧ o.incentiveBonus = 0
      ∧ o.cancelDeadlineAt = 7200 - 60 * 60 :=
  (createScheduled_spec
      { passengerID := "p2", pickup := ⟨0, 0⟩, dropoff := ⟨1, 1⟩,
        rideType := "van", scheduledAt := 7200, scheduleWindowMins := 60 }
      0 false Option.none "id2").2.2 (by decide) rfl

end Ark
